import Mathlib

/-
  Verification development for the ConSiteTools repository.

  Shallow embedding of the parts of CreateConSites.py, PrioritizeConSites.py
  and Helper.py referenced by the claims, with theorems settling each claim.
  Machine geometry is modelled where needed over an integer grid (points are
  pairs of integers, polygons are finite sets of points, buffering is by
  squared-distance comparison); tabular code is modelled over lists of records.
-/

set_option maxRecDepth 8000

namespace ConSiteTools

/-! ## SBB Builder: PrepProcFeats (CreateConSites.py lines 1184-1256) -/

/-- The RULE strings that occur on Procedural Features, as seen by the
`string2int` codeblock: a numeric string (parsed by `int`), the literal
"AHZ", or anything else (for which `int` raises and the except branch runs). -/
inductive RuleStr where
  | num (n : ℤ)
  | ahz
  | other
deriving DecidableEq, Repr

/-- The `string2int` codeblock of PrepProcFeats: numeric string to its integer,
"AHZ" to -1, anything else to 0. -/
def string2int : RuleStr → ℤ
  | .num n => n
  | .ahz => -1
  | .other => 0

/-- The zero-buffer override at the end of the `string2float` codeblock:
`if origBuff in (0, "0"): BufferFloat = 0`. -/
def zeroOv (origBuff : Option ℚ) (v : Option ℚ) : Option ℚ :=
  if origBuff = some 0 then some 0 else v

/-- The `string2float` codeblock of PrepProcFeats.  The supplied buffer is
modelled numerically (`none` = null field).  Rule 13 applies `float(origBuff)`
to a possibly-null value, which raises in Python; that is the `.error` case.
Branch order follows the source: -1, 13, 10, then the standard rules. -/
def string2float (ri : ℤ) (origBuff : Option ℚ) : Except Unit (Option ℚ) :=
  if ri = -1 then
    .ok (zeroOv origBuff (if origBuff = none ∨ origBuff = some 0 then some 0 else origBuff))
  else if ri = 13 then
    match origBuff with
    | none => .error ()
    | some q => .ok (zeroOv origBuff (some q))
  else if ri = 10 then
    .ok (zeroOv origBuff
      (if origBuff = some 0 ∨ origBuff = some 150 ∨ origBuff = some 500 then origBuff else none))
  else if ri = 1 then .ok (zeroOv origBuff (some 150))
  else if ri = 2 ∨ ri = 3 ∨ ri = 4 ∨ ri = 8 ∨ ri = 14 then .ok (zeroOv origBuff (some 250))
  else if ri = 11 ∨ ri = 12 then .ok (zeroOv origBuff (some 405))
  else if ri = 15 then .ok (zeroOv origBuff (some 0))
  else .ok (zeroOv origBuff none)

/-- The fltBuffer table as worded in the claim (C4).  Outer `none` means the
claim does not speak about that case (rule 13 with a null buffer, or an
integer rule outside the table).  The claim's final sentence - a supplied
zero buffer always overrides to zero - is the first case. -/
def fltBufferClaim (ri : ℤ) (b : Option ℚ) : Option (Option ℚ) :=
  if b = some 0 then some (some 0)
  else if ri = 1 then some (some 150)
  else if ri = 2 ∨ ri = 3 ∨ ri = 4 ∨ ri = 8 ∨ ri = 14 then some (some 250)
  else if ri = 11 ∨ ri = 12 then some (some 405)
  else if ri = 15 then some (some 0)
  else if ri = 13 then (match b with | some q => some (some q) | none => none)
  else if ri = -1 then some (some (b.getD 0))
  else if ri = 5 ∨ ri = 6 ∨ ri = 7 ∨ ri = 9 then some none
  else if ri = 10 then
    some (if b = some 150 ∨ b = some 500 then b else none)
  else none

/-! ## ECS Ranker: addRanks (PrioritizeConSites.py lines 76-138) -/

/-- One comparison of the addRanks rank loop: is the (absolute or percent)
difference between `v` and the last rank-incrementing value `sortVal`
strictly above the threshold?  For the PER type the Python expression
`100*abs(v - sortVal)/sortVal` raises ZeroDivisionError when `sortVal` is
zero; that is the `.error` case. -/
def perDiff (per : Bool) (thresh sortVal v : ℚ) : Except Unit Bool :=
  if per then
    if sortVal = 0 then .error ()
    else .ok (100 * |v - sortVal| / sortVal > thresh)
  else .ok (|v - sortVal| > thresh)

/-- The rank loop of addRanks over the (sorted, rounded, deduplicated) value
list of one group, carrying the current rank and the last rank-incrementing
value, and emitting the value-to-rank assignment. -/
def rankAux (per : Bool) (thresh : ℚ) (rank : ℕ) (sortVal : ℚ) :
    List ℚ → Except Unit (List (ℚ × ℕ))
  | [] => .ok []
  | v :: rest =>
    match perDiff per thresh sortVal v with
    | .error e => .error e
    | .ok big =>
      if big then
        (rankAux per thresh (rank + 1) v rest).map (fun l => (v, rank + 1) :: l)
      else
        (rankAux per thresh rank sortVal rest).map (fun l => (v, rank) :: l)

/-- addRanks rank assignment for one group: rank starts at 1, `sortVal`
starts at the first value of the list, and the loop runs over the whole
list (first value included), as in the source. -/
def rankGroup (per : Bool) (thresh : ℚ) (vals : List ℚ) : Except Unit (List (ℚ × ℕ)) :=
  match vals with
  | [] => .ok []
  | v0 :: _ => rankAux per thresh 1 v0 vals

/-- addRanks at table level: the rank dictionary is built for every group
before any rank is written back, so a failure in any single group aborts the
whole call and no rank field is written. -/
def addRanksModel (per : Bool) (thresh : ℚ) :
    List (String × List ℚ) → Except Unit (List (String × List (ℚ × ℕ)))
  | [] => .ok []
  | g :: gs =>
    match rankGroup per thresh g.2 with
    | .error e => .error e
    | .ok l => (addRanksModel per thresh gs).map (fun t => (g.1, l) :: t)

/-- The per-step equivalence test as worded in claim C6: a value is ranked
with the current rank exactly when it differs from the last
rank-incrementing value by at most `thresh` (absolute difference for ABS,
percent difference for PER). -/
def diffWithinThresh (per : Bool) (thresh sortVal v : ℚ) : Prop :=
  (if per then 100 * |v - sortVal| / sortVal else |v - sortVal|) ≤ thresh

/-- The ranking behaviour claimed by C6, written from the spec's words as a
relation on the emitted (value, rank) list: in state (v*, current rank), the
next value keeps the current rank exactly when it is within `thresh` of v*,
and otherwise the rank is incremented and v* becomes that value. -/
inductive RanksSpec (per : Bool) (thresh : ℚ) : ℚ → ℕ → List (ℚ × ℕ) → Prop where
  | nil : ∀ sortVal rank, RanksSpec per thresh sortVal rank []
  | same : ∀ sortVal rank v rest, diffWithinThresh per thresh sortVal v →
      RanksSpec per thresh sortVal rank rest →
      RanksSpec per thresh sortVal rank ((v, rank) :: rest)
  | incr : ∀ sortVal rank v rest, ¬ diffWithinThresh per thresh sortVal v →
      RanksSpec per thresh v (rank + 1) rest →
      RanksSpec per thresh sortVal rank ((v, rank + 1) :: rest)

/-! ## Geometry helper ShrinkWrap: hole elimination (Helper.py lines 425-520) -/

/-- EliminatePolygonPart with condition PERCENT and part option
CONTAINED_ONLY: interior holes whose area is less than `pct` percent of the
total outer area are eliminated (filled); the others are retained.  Modelled
on the list of hole areas of one polygon with outer area `outerArea`. -/
def elimPolygonPartPercent (pct outerArea : ℚ) (holes : List ℚ) : List ℚ :=
  holes.filter (fun h => decide (¬ (100 * h < pct * outerArea)))

/-- The hole elimination performed on each coalesced cluster inside
ShrinkWrap: `EliminatePolygonPart(coalFeats, noGapFeats, "PERCENT", "", 99,
"CONTAINED_ONLY")`. -/
def shrinkWrapRetainedHoles (clusterArea : ℚ) (holes : List ℚ) : List ℚ :=
  elimPolygonPartPercent 99 clusterArea holes

/-- The hole elimination as worded in claim C9: holes under 1 percent of the
cluster are eliminated, holes of 1 percent or more are preserved. -/
def shrinkWrapRetainedHolesClaim (clusterArea : ℚ) (holes : List ℚ) : List ℚ :=
  holes.filter (fun h => decide (¬ (100 * h < 1 * clusterArea)))

/-! ## Modifier Preparer: CullEraseFeats (CreateConSites.py lines 944-981) -/

/-- TabulateIntersection PERCENTAGE over a cell decomposition of the plane:
percent of the zone polygon (an SBB) covered by one class polygon (an erase
feature). -/
def pctCov (sbb h : Finset ℕ) : ℚ := 100 * ((sbb ∩ h).card : ℚ) / (sbb.card : ℚ)

/-- The call `Statistics_analysis(TabIntersect, TabSum, "PERCENTAGE SUM", fld_SFID)`:
the summed percentage of one SBB covered by all the erase features. -/
def sumCov (sbb : Finset ℕ) (hydros : List (Finset ℕ)) : ℚ :=
  (hydros.map (pctCov sbb)).sum

/-- Union of a list of polygons. -/
def unionList {α : Type} [DecidableEq α] (l : List (Finset α)) : Finset α :=
  l.foldr (· ∪ ·) ∅

/-- CullEraseFeats: joins the summed coverage back to the SBBs, selects the
SBBs whose summed coverage reaches `perCov`, and erases (CleanErase) the
selected SBBs out of the erase features; features erased away entirely
disappear from the output. -/
def cullEraseFeats (hydros sbbs : List (Finset ℕ)) (perCov : ℚ) : List (Finset ℕ) :=
  let sel := sbbs.filter (fun s => decide (sumCov s hydros ≥ perCov))
  (hydros.map (fun h => h \ unionList sel)).filter (fun h => decide (h ≠ ∅))

/-- The culling rule as worded in claim C8: tabulate intersection per SBB
and erase feature, take the per-erase-feature maximum, and drop every erase
feature whose maximum coverage of an SBB reaches `perCov`, keeping the other
erase features whole. -/
def cullEraseFeatsClaim (hydros sbbs : List (Finset ℕ)) (perCov : ℚ) : List (Finset ℕ) :=
  hydros.filter (fun h => decide (¬ ∃ s ∈ sbbs, pctCov s h ≥ perCov))

/-! ## Portfolio Builder: site tiers (PrioritizeConSites.py lines 1807-1835) -/

/-- The fields of an EO that matter for the EO-to-ConSite spatial join:
its id, its site types (SITE_TYPE_EO split on commas), and its FinalRANK. -/
structure EOJ where
  id : ℕ
  types : List String
  finalRank : ℤ
deriving DecidableEq, Repr

/-- A Conservation Site as seen by the spatial join: id (SITEID) and
SITE_TYPE_CS. -/
structure SiteJ where
  id : ℕ
  siteType : String
deriving DecidableEq, Repr

/-- One row of the EO/ConSite join table `eo_cs`. -/
structure JoinRow where
  eoId : ℕ
  csId : ℕ
  finalRank : ℤ
deriving DecidableEq, Repr

/-- Strict comparison of characters by code point. -/
def charLtB (a b : Char) : Bool := a.val.toNat < b.val.toNat

/-- Lexicographic comparison of character lists. -/
def chLeB : List Char → List Char → Bool
  | [], _ => true
  | _ :: _, [] => false
  | a :: as, b :: bs => if a = b then chLeB as bs else charLtB a b

/-- Lexicographic string comparison by code points (Python's string
order). -/
def strLeB (a b : String) : Bool := chLeB a.toList b.toList

/-- Insertion of a string into a sorted list (used to model the `sorted`
builtin of `unique_values`). -/
def insertSorted (s : String) : List String → List String
  | [] => [s]
  | t :: rest => if strLeB s t then s :: t :: rest else t :: insertSorted s rest

/-- Insertion sort on strings (the `sorted` builtin of `unique_values`). -/
def sortStrings : List String → List String
  | [] => []
  | s :: rest => insertSorted s (sortStrings rest)

/-- Model of `unique_values`: sorted unique site types present on the ConSites. -/
def sortedTypes (sites : List SiteJ) : List String :=
  sortStrings (sites.map (·.siteType)).dedup

/-- SpatialJoin_byType (PrioritizeConSites.py lines 479-503): for each site
type, join the EOs carrying that type to the ConSites of that type, one to
many, keeping only matched pairs (KEEP_COMMON), with the within-a-distance
match given by `near` (the 15 m slop factor). -/
def sjoinByType (near : ℕ → ℕ → Bool) (eos : List EOJ) (sites : List SiteJ) : List JoinRow :=
  (sortedTypes sites).bind (fun s =>
    (eos.filter (fun e => e.types.contains s)).bind (fun e =>
      ((sites.filter (fun c => c.siteType == s)).filter (fun c => near e.id c.id)).map
        (fun c => ⟨e.id, c.id, e.finalRank⟩)))

/-- The call `Statistics_analysis(eo_cs, eo_cs_stats, (FinalRANK, MIN), cs_id)`:
per-site minimum FinalRANK over the join rows; no row, no stats record. -/
def minFinalRank (rows : List JoinRow) (cid : ℕ) : Option ℤ :=
  ((rows.filter (fun r => r.csId == cid)).map (·.finalRank)).min?

/-- The tier text codeblock `fn(myMin)` of BuildPortfolio. -/
def fnTier (m : ℤ) : String :=
  if m = 1 then "Irreplaceable"
  else if m = 2 then "Critical"
  else if m = 3 then "Vital"
  else if m = 4 then "High Priority"
  else if m = 5 then "General"
  else "NA"

/-- ECS_TIER of a site: the tier text of its stats record, joined back by
SITEID.  JoinField leaves the field null (`none`) for a site with no stats
record, i.e. with no joined EO. -/
def ecsTier (near : ℕ → ℕ → Bool) (eos : List EOJ) (sites : List SiteJ) (c : SiteJ) :
    Option String :=
  (minFinalRank (sjoinByType near eos sites) c.id).map fnTier

/-- ECS_TIER as worded in claim C3: the tier text of the minimum FinalRANK
among joined EOs, and the literal text "NA" when no EO joins. -/
def ecsTierClaim (near : ℕ → ℕ → Bool) (eos : List EOJ) (sites : List SiteJ) (c : SiteJ) :
    Option String :=
  match minFinalRank (sjoinByType near eos sites) c.id with
  | some m => some (fnTier m)
  | none => some "NA"

/-! ## SBB Builder: CreateWetlandSBB (CreateConSites.py lines 1258-1423)

Geometry is modelled over an integer grid: a polygon is a finite set of
grid points, distance is the squared euclidean distance, and buffering by a
distance `d` yields the (possibly infinite) point set within `d` of the
polygon.  Clipping a polygon to a buffer keeps its points inside the
buffer. -/

/-- A grid point. -/
abbrev Pt := ℤ × ℤ

/-- Squared euclidean distance between grid points. -/
def dist2 (a b : Pt) : ℤ := (a.1 - b.1) ^ 2 + (a.2 - b.2) ^ 2

/-- Membership in the `d`-buffer of polygon `S`. -/
def inBuff (S : Finset Pt) (d : ℤ) (x : Pt) : Prop := ∃ y ∈ S, dist2 x y ≤ d ^ 2

instance (S : Finset Pt) (d : ℤ) (x : Pt) : Decidable (inBuff S d x) := by
  unfold inBuff; infer_instance

instance (S : Finset Pt) (d : ℤ) : DecidablePred (inBuff S d) := fun _ => by
  unfold inBuff; infer_instance

/-- The `d`-buffer of polygon `S`, as a point set (PairwiseBuffer). -/
def buffSet (S : Finset Pt) (d : ℤ) : Set Pt := {x | inBuff S d x}

/-- Whether two polygons come within distance `d` of each other
(SelectLayerByLocation WITHIN_A_DISTANCE). -/
def nearB (w v : Finset Pt) (d : ℤ) : Bool :=
  decide (∃ x ∈ w, ∃ y ∈ v, dist2 x y ≤ d ^ 2)

/-- One pass of ExpandSelection: add every feature within `d` of the current
selection. -/
def expandOnce (all sel : List (Finset Pt)) (d : ℤ) : List (Finset Pt) :=
  all.filter (fun w => sel.contains w || sel.any (fun v => nearB w v d))

/-- ExpandSelection iterated to a fixpoint (the selection can only grow, so
`all.length` passes suffice). -/
def expandIter (all : List (Finset Pt)) (d : ℤ) : ℕ → List (Finset Pt) → List (Finset Pt)
  | 0, sel => sel
  | n + 1, sel => expandIter all d n (expandOnce all sel d)

/-- The NWI features intersecting the maximum buffer (step 3's selection). -/
def nwiCands (P : Finset Pt) (nwi : List (Finset Pt)) (buff2 : ℤ) : List (Finset Pt) :=
  nwi.filter (fun w => decide (∃ x ∈ w, inBuff P buff2 x))

/-- The candidate NWI features clipped to the maximum buffer (step 3). -/
def nwiClipped (P : Finset Pt) (nwi : List (Finset Pt)) (buff2 : ℤ) : List (Finset Pt) :=
  (nwiCands P nwi buff2).map (fun w => w.filter (fun x => inBuff P buff2 x))

/-- The clipped NWI features within the 15 m search distance of the PF
(step 4's initial selection). -/
def nwiSel0 (P : Finset Pt) (nwi : List (Finset Pt)) (buff2 : ℤ) : List (Finset Pt) :=
  (nwiClipped P nwi buff2).filter (fun w => nearB w P 15)

/-- CreateWetlandSBB for one Procedural Feature `P` with the NWI features of
the rule's subset, with the minimum and maximum buffer distances as
parameters.  NWI features intersecting the maximum buffer are clipped to
it; those within 15 m of the PF seed an expanding selection; the selection
buffered by 100 m is merged (dissolved) with the minimum buffer and clipped
to the maximum buffer.  With no NWI in range the SBB is the minimum
buffer. -/
def wetlandSBBgen (P : Finset Pt) (nwi : List (Finset Pt)) (buff1 buff2 : ℤ) : Set Pt :=
  if (nwiCands P nwi buff2).isEmpty then buffSet P buff1
  else if (nwiSel0 P nwi buff2).isEmpty then buffSet P buff1
  else
    (buffSet P buff1 ∪
      buffSet (unionList (expandIter (nwiClipped P nwi buff2) 15
        (nwiClipped P nwi buff2).length (nwiSel0 P nwi buff2))) 100) ∩ buffSet P buff2

/-- CreateWetlandSBB with the actual buffer distances: under the zero-buffer
override (`fltBuffer = 0`) the minimum buffer is the PF itself and the
maximum buffer shrinks to 250 m; otherwise 250 m and 500 m. -/
def wetlandSBB (P : Finset Pt) (nwi : List (Finset Pt)) (override : Bool) : Set Pt :=
  wetlandSBBgen P nwi (if override then 0 else 250) (if override then 250 else 500)

/-! ## Site Assembler: final per-ProtoSite steps (CreateConSites.py lines 1952-1985)

The geometry primitives in this stage are external to the spec; what claim
C7 asserts is WHICH operations run, in which order, after the split-site
boundaries of one ProtoSite are merged.  The stage is therefore embedded as
the list of operations the source performs. -/

/-- An operation of the final assembly stage. -/
inductive SiteOp where
  | smoothBoundary (meters : ℚ)
  | eraseExclusions
  | elimHolesPercent (pct : ℚ)
  | generalizeBoundary (meters : ℚ)
  | appendOutput
deriving DecidableEq, Repr

/-- The final steps the source performs for each (terrestrial) ProtoSite
after the split-site group `tmpSS_grp` is assembled: the final smoothing
`Coalesce(tmpSS_grp, "10 METERS", smoothBnd)`, then
`EliminatePolygonPart(smoothBnd, finBnd, "PERCENT", "", 99.99,
"CONTAINED_ONLY")`, then `Generalize(finBnd, "0.5 METERS")`, then
`Append(finBnd, out_ConSites)`.  The "Final removal of manual exclusions"
block (source lines 1966-1972) is commented out, so no erase of the clipped
exclusion features occurs in this stage. -/
def tcsFinalSteps : List SiteOp :=
  [.smoothBoundary 10, .elimHolesPercent (9999 / 100), .generalizeBoundary (1 / 2),
   .appendOutput]

/-- The final steps as worded in claim C7 (and spec section 4.E step j):
after the smoothing, the clipped exclusion features are erased one more
time before holes are eliminated and the boundary is generalized. -/
def tcsFinalStepsClaim : List SiteOp :=
  [.smoothBoundary 10, .eraseExclusions, .elimHolesPercent (9999 / 100),
   .generalizeBoundary (1 / 2), .appendOutput]

/-! ## Portfolio Builder: BuildPortfolio (PrioritizeConSites.py lines 1555-1929)

The portfolio phase is modelled over lists of EO and ConSite records.  The
15 m proximity test between an EO and a ConSite (the slop factor) is an
abstract boolean relation `near` on their ids.  Attribute fields the phase
only reads (BMI score, ysnNAP, CS_CONSVALUE, COUNT_SFID, SHAPE_Area) are
carried as given input attributes. -/

/-- An EO record with the fields the ECS attribution and portfolio phases
read and write. -/
structure EO where
  id : ℕ                 -- SF_EOID
  elcode : String        -- ELCODE
  types : List String    -- SITE_TYPE_EO, split on commas
  eorankNum : ℤ          -- EORANK_NUM
  recent : ℤ             -- RECENT
  exclusion : String     -- EXCLUSION
  tier : Option String   -- TIER (null outside the Keep subset)
  choiceRank : ℤ         -- ChoiceRANK
  portfolio : ℤ          -- PORTFOLIO
  override : ℤ           -- OVERRIDE
  bmi : ℚ                -- BMI_score
  nap : ℚ                -- ysnNAP
  csVal : ℚ              -- CS_CONSVALUE
  numPF : ℚ              -- COUNT_SFID
  area : ℚ               -- SHAPE_Area
deriving DecidableEq, Repr

/-- A ConSite record with the fields the portfolio phase reads and
writes. -/
structure CSite where
  id : ℕ
  siteType : String      -- SITE_TYPE_CS
  portfolio : ℤ          -- PORTFOLIO
  override : ℤ           -- OVERRIDE
deriving DecidableEq, Repr

/-- Generic insertion into a sorted list by a boolean order. -/
def insertLeB {α : Type} (le : α → α → Bool) (x : α) : List α → List α
  | [] => [x]
  | y :: rest => if le x y then x :: y :: rest else y :: insertLeB le x rest

/-- Generic insertion sort by a boolean order. -/
def sortLeB {α : Type} (le : α → α → Bool) : List α → List α
  | [] => []
  | x :: rest => insertLeB le x (sortLeB le rest)

/-! ### AttributeEOs: EXCLUSION and the TIER join (lines 1158-1336) -/

/-- The EXCLUSION value of one EO: the EORANK_NUM reclass (10 = Not viable,
above 10 = Error Check Needed, else Keep), then RECENT = 0 rows become Old
Observation, then EOs of excluded elements become Excluded Element. -/
def calcExclusion (eorankNum recent : ℤ) (elementExcluded : Bool) : String :=
  let e1 := if eorankNum = 10 then "Not viable"
            else if eorankNum > 10 then "Error Check Needed"
            else "Keep"
  let e2 := if recent = 0 then "Old Observation" else e1
  if elementExcluded then "Excluded Element" else e2

/-- Calculate EXCLUSION for all EOs. -/
def assignExclusions (excludedElcodes : List String) (eos : List EO) : List EO :=
  eos.map (fun e =>
    {e with exclusion := calcExclusion e.eorankNum e.recent (excludedElcodes.contains e.elcode)})

/-- COUNT_ELIG_EO of an element: its EOs with EXCLUSION = Keep. -/
def countElig (eos : List EO) (el : String) : ℤ :=
  ((eos.filter (fun e => e.exclusion == "Keep" && e.elcode == el)).length : ℤ)

/-- The initial tier of an element (`calcTier` codeblock): Irreplaceable
for a single eligible EO, Critical for two, else Unassigned. -/
def initTier (count : ℤ) : String :=
  if count = 1 then "Irreplaceable" else if count = 2 then "Critical" else "Unassigned"

/-- The TIER field starts null and the per-element initial tier is joined to
the layer of EXCLUSION = Keep EOs only (line 1333 joins to `lyr_EO`, whose
definition query is EXCLUSION = 'Keep'); ineligible EOs keep a null TIER. -/
def attributeTiers (eos : List EO) : List EO :=
  let cleared := eos.map (fun e => {e with tier := none})
  cleared.map (fun e =>
    if e.exclusion == "Keep" then {e with tier := some (initTier (countElig cleared e.elcode))}
    else e)

/-- ChoiceRANK from TIER (`calcRank` codeblock of ScoreEOs, line 1448). -/
def calcChoiceRank (tier : Option String) : ℤ :=
  if tier = some "Irreplaceable" then 1
  else if tier = some "Critical" then 2
  else if tier = some "Vital" then 3
  else if tier = some "High Priority" then 4
  else if tier = some "Unassigned" then 5
  else if tier = some "General" then 6
  else 7

/-- Calculate ChoiceRANK for all EOs. -/
def assignChoiceRank (eos : List EO) : List EO :=
  eos.map (fun e => {e with choiceRank := calcChoiceRank e.tier})

/-! ### updatePortfolio (lines 321-383) -/

/-- Model of `unique_values(in_ConSites, "SITE_TYPE_CS")`: sorted unique site
types. -/
def sortedTypesCS (sites : List CSite) : List String :=
  sortStrings (sites.map (·.siteType)).dedup

/-- The step-1 EO layer of updatePortfolio for site type `s`:
`SITE_TYPE_EO LIKE '%s%' AND (ChoiceRANK <= 4 OR PORTFOLIO = 1) AND
OVERRIDE > -1`. -/
def puSelEO (s : String) (e : EO) : Bool :=
  e.types.contains s && (decide (e.choiceRank ≤ 4) || decide (e.portfolio = 1)) &&
    decide (e.override > -1)

/-- Step 1 of updatePortfolio for one site type: ConSites of that type
(OVERRIDE > -1) within the slop distance of a step-1 EO get PORTFOLIO = 1,
and every step-1 EO gets PORTFOLIO = 1 (the CalculateField on `lyr_EO` is
applied to the whole layer, not a selection). -/
def puStep1 (near : ℕ → ℕ → Bool) (s : String) (eos : List EO) (sites : List CSite) :
    List EO × List CSite :=
  let sites2 := sites.map (fun c =>
    if c.siteType == s && decide (c.override > -1) &&
        eos.any (fun e => puSelEO s e && near e.id c.id)
    then {c with portfolio := 1} else c)
  (eos.map (fun e => if puSelEO s e then {e with portfolio := 1} else e), sites2)

/-- The bycatch candidate layer for site type `s`: Unassigned, not yet in
the portfolio, not blocked by an override, and (when a slot dictionary was
passed) of an element with open slots. -/
def byCand (s : String) (keys : Option (List String)) (e : EO) : Bool :=
  e.types.contains s && (e.tier == some "Unassigned") && decide (e.portfolio = 0) &&
    decide (e.override > -1) &&
    (match keys with | none => true | some ks => ks.contains e.elcode)

/-- Dictionary lookup with default 0. -/
def slotLookup (d : List (String × ℤ)) (el : String) : ℤ :=
  ((d.find? (fun kv => kv.1 == el)).map Prod.snd).getD 0

/-- The bycatch step of updatePortfolio for one site type: select candidate
EOs within the slop distance of a portfolio ConSite of that type; when a
slot dictionary was passed, elements whose selected count exceeds their
open slots have ALL their selected EOs marked OVERRIDE = -2 instead of
added; the remaining selected EOs get PORTFOLIO = 1. -/
def puBycatch (near : ℕ → ℕ → Bool) (s : String) (slotDict : Option (List (String × ℤ)))
    (eos : List EO) (sites : List CSite) : List EO :=
  let keys := slotDict.map (fun d => (d.filter (fun kv => decide (kv.2 ≠ 0))).map Prod.fst)
  let selB := fun (e : EO) => byCand s keys e &&
      sites.any (fun c => c.siteType == s && decide (c.portfolio = 1) && near e.id c.id)
  match slotDict with
  | none => eos.map (fun e => if selB e then {e with portfolio := 1} else e)
  | some d =>
    let cnt := fun el => (((eos.filter selB).filter (fun e => e.elcode == el)).length : ℤ)
    eos.map (fun e =>
      if selB e then
        if decide (cnt e.elcode > slotLookup d e.elcode) then {e with override := -2}
        else {e with portfolio := 1}
      else e)

/-- The `updateStatus` portfolio count of one element: the sum of PORTFOLIO over
its EOs with OVERRIDE <> -1 (Frequency with summary field PORTFOLIO). -/
def portfolioSum (eos : List EO) (el : String) : ℤ :=
  ((eos.filter (fun e => e.elcode == el && decide (e.override ≠ -1))).map (·.portfolio)).sum

/-- buildSlotDict (lines 412-429): elements with PORTFOLIO < TARGET and
their remaining slots. -/
def buildSlotDictM (targets : List (String × ℤ)) (eos : List EO) : List (String × ℤ) :=
  targets.filterMap (fun te =>
    if portfolioSum eos te.1 < te.2 then some (te.1, te.2 - portfolioSum eos te.1) else none)

/-- The site-type loop of updatePortfolio: for each site type in order, run
step 1 and (when bycatch is on) the bycatch step. -/
def puLoop (near : ℕ → ℕ → Bool) (sd : Option (List (String × ℤ))) (bycatch : Bool) :
    List String → List EO → List CSite → List EO × List CSite
  | [], eos, sites => (eos, sites)
  | s :: rest, eos, sites =>
    puLoop near sd bycatch rest
      (if bycatch then
        puBycatch near s sd (puStep1 near s eos sites).1 (puStep1 near s eos sites).2
       else (puStep1 near s eos sites).1)
      (puStep1 near s eos sites).2

/-- updatePortfolio: loop over the sorted unique site types, running step 1
and (optionally) the bycatch step for each; then recompute the element
portfolio status and the slot dictionary. -/
def updatePortfolioM (near : ℕ → ℕ → Bool) (targets : List (String × ℤ))
    (slotDict : Option (List (String × ℤ))) (bycatch : Bool)
    (eos : List EO) (sites : List CSite) :
    List EO × List CSite × List (String × ℤ) :=
  let p := puLoop near slotDict bycatch (sortedTypesCS sites) eos sites
  (p.1, p.2, buildSlotDictM targets p.1)

/-! ### updateSlots (lines 254-319) and the slot-filling rank passes -/

/-- The while loop of updateSlots over the ascending distinct rank values of
one element: `q1` counts the not-yet-added rows at or below the current rank
value; fewer than the open slots fills them and continues, exactly the open
slots fills them and stops, more than the open slots instead marks the rows
above the current rank value OVERRIDE = -2 and stops. -/
def slotLoop (cands : List (ℕ × ℤ)) : List ℕ → List ℤ → ℤ → List ℕ × List ℕ × ℤ
  | added, [], avail => (added, [], avail)
  | added, rk :: rest, avail =>
    if avail ≤ 0 then (added, [], avail)
    else
      let q1 := cands.filter (fun p => decide (p.2 ≤ rk) && !(added.contains p.1))
      let c : ℤ := (q1.length : ℤ)
      if c = 0 then (added, [], avail)
      else if c < avail then slotLoop cands (added ++ q1.map Prod.fst) rest (avail - c)
      else if c = avail then (added ++ q1.map Prod.fst, [], 0)
      else
        (added, (cands.filter (fun p => decide (p.2 > rk) && !(added.contains p.1))).map Prod.fst,
          avail)

/-- updateSlots: for each element of the slot dictionary, run the slot loop
on its candidate rows (the rows of the ranked layer), then write
PORTFOLIO = 1 for the added rows and OVERRIDE = -2 for the dropped rows, and
return the dictionary entries with open slots remaining. -/
def updateSlotsM (rankOf : EO → ℤ) (pred : EO → Bool) (slotDict : List (String × ℤ))
    (eos : List EO) : List EO × List (String × ℤ) :=
  let res := slotDict.map (fun te =>
    let cands := (eos.filter pred).filter (fun e => e.elcode == te.1)
    let rnks := sortLeB (fun a b => decide (a ≤ b)) ((cands.map rankOf).dedup)
    (te.1, slotLoop (cands.map (fun e => (e.id, rankOf e))) [] rnks te.2))
  let addIds := (res.map (fun r => r.2.1)).join
  let rmIds := (res.map (fun r => r.2.2.1)).join
  let eos2 := eos.map (fun e =>
    {e with portfolio := if addIds.contains e.id then 1 else e.portfolio,
            override := if rmIds.contains e.id then -2 else e.override})
  (eos2, (res.map (fun r => (r.1, r.2.2.2))).filter (fun kv => decide (kv.2 ≠ 0)))

/-- Python `round` (banker's rounding) to an integer. -/
def roundHalfEven (q : ℚ) : ℤ :=
  if q - ⌊q⌋ < 1 / 2 then ⌊q⌋
  else if q - ⌊q⌋ > 1 / 2 then ⌊q⌋ + 1
  else if Even ⌊q⌋ then ⌊q⌋ else ⌊q⌋ + 1

/-- Optional rounding of a sort value to `n` decimal places, as addRanks
does before deduplication. -/
def applyRound (rounding : Option ℤ) (q : ℚ) : ℚ :=
  match rounding with
  | none => q
  | some n => (roundHalfEven (q * (10 : ℚ) ^ n) : ℚ) / (10 : ℚ) ^ n

/-- addRanks over the layer rows of one EO's element, descending order, ABS
threshold type (every slot-filling pass of BuildPortfolio is DESCENDING and
ABS): sort the element's values descending, round, deduplicate, rank with
the threshold loop, and read off this EO's rank. -/
def addRanksOf (thresh : ℚ) (rounding : Option ℤ) (val : EO → ℚ)
    (pred : EO → Bool) (eos : List EO) : EO → ℤ :=
  fun e =>
    let cands := (eos.filter pred).filter (fun x => x.elcode == e.elcode)
    let sortedVals := (sortLeB (fun a b => decide (a ≤ b)) (cands.map val)).reverse
    let uniq := (sortedVals.map (applyRound rounding)).dedup
    match rankGroup false thresh uniq with
    | .ok rl => ((rl.find? (fun p => p.1 == applyRound rounding (val e))).map
        (fun p => ((p.2 : ℤ)))).getD 0
    | .error _ => 0

/-- One slot-filling pass of BuildPortfolio (lines 1690-1730): skipped when
no element has open slots; otherwise make the layer of still-Unassigned,
override-free, out-of-portfolio EOs of elements with open slots, rank them
on the pass's value field, update slots, and update the portfolio with
bycatch. -/
def fillPass (near : ℕ → ℕ → Bool) (targets : List (String × ℤ)) (thresh : ℚ)
    (rounding : Option ℤ) (val : EO → ℚ)
    (st : List EO × List CSite × List (String × ℤ)) :
    List EO × List CSite × List (String × ℤ) :=
  if st.2.2.isEmpty then st
  else
    let keys := st.2.2.map Prod.fst
    let pred := fun (e : EO) => (e.tier == some "Unassigned") && decide (e.override > -1) &&
        decide (e.portfolio = 0) && keys.contains e.elcode
    let q := updateSlotsM (addRanksOf thresh rounding val pred st.1) pred st.2.2 st.1
    updatePortfolioM near targets (some q.2) true q.1 st.2.1

/-! ### Tier finalization and the whole NEW build (lines 1611-1805) -/

/-- Tier finalization (lines 1732-1739): Unassigned EOs in the portfolio
become High Priority, Unassigned EOs with PORTFOLIO <= 0 become General. -/
def finalizeTiers (eos : List EO) : List EO :=
  (eos.map (fun e =>
    if e.tier == some "Unassigned" && decide (e.portfolio = 1)
    then {e with tier := some "High Priority"} else e)).map (fun e =>
      if e.tier == some "Unassigned" && decide (e.portfolio ≤ 0)
      then {e with tier := some "General"} else e)

/-- The OVERRIDE = -2 reset at lines 1801-1805. -/
def resetOverride (eos : List EO) : List EO :=
  eos.map (fun e => if e.override == -2 then {e with override := 0} else e)

/-- The NEW-build reset of the EO portfolio fields (lines 1617-1620). -/
def bpInitEOs (eos : List EO) : List EO :=
  eos.map (fun e => {e with portfolio := 0, override := 0})

/-- The ConSites subset to the site types present among the EOs (lines
1601-1609) with the NEW-build reset of their portfolio fields. -/
def bpInitSites (eos : List EO) (sites : List CSite) : List CSite :=
  (sites.filter (fun c => eos.any (fun e => e.types.contains c.siteType))).map
    (fun c => {c with portfolio := 0, override := 0})

/-- The portfolio state after the initial no-bycatch update (line 1680). -/
def bpStart (near : ℕ → ℕ → Bool) (targets : List (String × ℤ))
    (eos : List EO) (sites : List CSite) : List EO × List CSite × List (String × ℤ) :=
  updatePortfolioM near targets none false (bpInitEOs eos) (bpInitSites eos sites)

/-- The portfolio state before tier finalization: the first bycatch update
and the five slot-filling passes (BMI score desc thresh 5; ysnNAP desc 0.5;
CS_CONSVALUE desc 1; COUNT_SFID desc 1; SHAPE_Area desc 0.01 rounded to
3). -/
def bpPre (near : ℕ → ℕ → Bool) (targets : List (String × ℤ))
    (eos : List EO) (sites : List CSite) : List EO × List CSite × List (String × ℤ) :=
  fillPass near targets (1 / 100) (some 3) (·.area)
    (fillPass near targets 1 none (·.numPF)
      (fillPass near targets 1 none (·.csVal)
        (fillPass near targets (1 / 2) none (·.nap)
          (fillPass near targets 5 none (·.bmi)
            (updatePortfolioM near targets (some (bpStart near targets eos sites).2.2) true
              (bpStart near targets eos sites).1 (bpStart near targets eos sites).2.1)))))

/-- BuildPortfolio with build = NEW: reset PORTFOLIO and OVERRIDE, subset
the ConSites to the site types present among the EOs, update the portfolio
without bycatch to initiate the slot dictionary, update with bycatch, run
the five slot-filling passes, finalize the tiers, update the portfolio once
more, and reset OVERRIDE = -2 to 0. -/
def buildPortfolioNEW (near : ℕ → ℕ → Bool) (targets : List (String × ℤ))
    (eos : List EO) (sites : List CSite) : List EO × List CSite :=
  (resetOverride (updatePortfolioM near targets (some (bpPre near targets eos sites).2.2) true
      (finalizeTiers (bpPre near targets eos sites).1) (bpPre near targets eos sites).2.1).1,
   (updatePortfolioM near targets (some (bpPre near targets eos sites).2.2) true
      (finalizeTiers (bpPre near targets eos sites).1) (bpPre near targets eos sites).2.1).2.1)

/-- The number of an element's EOs in the final portfolio. -/
def portfolioEOCount (eos : List EO) (el : String) : ℕ :=
  ((eos.filter (fun e => e.elcode == el && decide (e.portfolio = 1))).length)

/-- The number of an element's EOs with a forcing OVERRIDE = 1. -/
def overrideOneCount (eos : List EO) (el : String) : ℕ :=
  ((eos.filter (fun e => e.elcode == el && decide (e.override = 1))).length)

/-! ### A failing input for claim C1

Element E (target 2) has three eligible EOs left Unassigned by the ranking
phase (all tied): EOs 1 and 2 are terrestrial, EO 3 is a stream EO.
Elements F and G each have a single Irreplaceable EO - F terrestrial near
site 10, G stream near site 20.  EOs 1 and 2 lie near site 10; EO 3 lies
near site 20. -/

/-- The 15 m proximity relation of the failing input. -/
def exNear : ℕ → ℕ → Bool := fun e c =>
  ([1, 2, 4].contains e && c == 10) || ([3, 5].contains e && c == 20)

/-- The element targets of the failing input. -/
def exTargets : List (String × ℤ) := [("E", 2), ("F", 1), ("G", 1)]

/-- The EOs of the failing input, in the state ScoreEOs leaves them. -/
def exEOs : List EO :=
  [⟨1, "E", ["TCS"], 4, 2, "Keep", some "Unassigned", 5, 0, 0, 0, 0, 0, 0, 0⟩,
   ⟨2, "E", ["TCS"], 4, 2, "Keep", some "Unassigned", 5, 0, 0, 0, 0, 0, 0, 0⟩,
   ⟨3, "E", ["SCS"], 4, 2, "Keep", some "Unassigned", 5, 0, 0, 0, 0, 0, 0, 0⟩,
   ⟨4, "F", ["TCS"], 1, 2, "Keep", some "Irreplaceable", 1, 0, 0, 0, 0, 0, 0, 0⟩,
   ⟨5, "G", ["SCS"], 1, 2, "Keep", some "Irreplaceable", 1, 0, 0, 0, 0, 0, 0, 0⟩]

/-- The ConSites of the failing input. -/
def exSites : List CSite := [⟨10, "TCS", 0, 0⟩, ⟨20, "SCS", 0, 0⟩]

/-! ### Tier closure (claim C2) -/

/-- What every portfolio stage before tier finalization does to a single
EO: it keeps the element, exclusion and tier, and either keeps the
portfolio mark or sets it to 1. -/
def TierRel (a b : EO) : Prop :=
  b.elcode = a.elcode ∧ b.exclusion = a.exclusion ∧ b.tier = a.tier ∧
    (b.portfolio = a.portfolio ∨ b.portfolio = 1)


/-! ## Theorems -/

/-! ### Theorems about PrepProcFeats (claim C4) -/

/-- Claim C4: PrepProcFeats computes intRule = int(RULE) for a numeric
string, -1 for AHZ, 0 otherwise; and fltBuffer follows the rule table of the
claim (150 for rule 1; 250 for 2/3/4/8/14; 405 for 11/12; 0 for 15; supplied
buffer verbatim for 13; supplied buffer with default 0 for AHZ; null for
wetland rules 5/6/7/9; for rule 10 the supplied buffer only when it is one
of 0/150/500, else null; and a supplied zero buffer always overrides the
computed value to zero).  `fltBufferClaim` is that table written from the
claim's words; on every case it covers, the code's `string2float` agrees. -/
theorem C4_prepProcFeats_buffers :
    (∀ n : ℤ, string2int (.num n) = n) ∧ string2int .ahz = -1 ∧ string2int .other = 0 ∧
    ∀ (ri : ℤ) (b : Option ℚ) (r : Option ℚ),
      fltBufferClaim ri b = some r → string2float ri b = .ok r := by
  refine ⟨fun n => rfl, rfl, rfl, ?_⟩
  intro ri b r h
  unfold fltBufferClaim at h
  by_cases hb : b = some 0
  · rw [if_pos hb] at h
    injection h with h
    subst h
    subst hb
    unfold string2float zeroOv
    split_ifs <;> simp_all
  · rw [if_neg hb] at h
    split_ifs at h with h1 h2 h3 h4 h5 h6 h7 h8 h9
    · subst h1; injection h with h; subst h
      norm_num [string2float, zeroOv, hb]
    · rcases h2 with rfl | rfl | rfl | rfl | rfl <;>
        (injection h with h; subst h; norm_num [string2float, zeroOv, hb])
    · rcases h3 with rfl | rfl <;>
        (injection h with h; subst h; norm_num [string2float, zeroOv, hb])
    · subst h4; injection h with h; subst h
      norm_num [string2float, zeroOv, hb]
    · subst h5
      cases b with
      | none => cases h
      | some q =>
        injection h with h; subst h
        norm_num [string2float, zeroOv, hb]
    · subst h6
      cases b with
      | none => injection h with h; subst h; norm_num [string2float, zeroOv]
      | some q =>
        injection h with h; subst h
        norm_num [string2float, zeroOv, hb]
        intro hq
        simp at hq
    · rcases h7 with rfl | rfl | rfl | rfl <;>
        (injection h with h; subst h; norm_num [string2float, zeroOv, hb])
    · subst h8; injection h with h; subst h
      rcases h9 with rfl | rfl <;> norm_num [string2float, zeroOv]
    · subst h8; injection h with h; subst h
      norm_num [string2float, zeroOv, hb, h9]

/-- Witness for C4: rule 1 with a null supplied buffer gets the standard
150 m buffer. -/
theorem C4_prepProcFeats_buffers_witness :
    string2float 1 none = .ok (some 150) :=
  C4_prepProcFeats_buffers.2.2.2 1 none (some 150) (by decide)

/-! ### Theorems about addRanks (claims C6 and C10) -/

/-- The boolean emitted by a successful `perDiff` comparison decides the
negation of the claim's within-threshold test. -/
lemma perDiff_ok_iff (per : Bool) (thresh sortVal v : ℚ) (big : Bool)
    (h : perDiff per thresh sortVal v = .ok big) :
    (big = true ↔ ¬ diffWithinThresh per thresh sortVal v) := by
  cases per with
  | false =>
    simp only [perDiff, Bool.false_eq_true, if_false, Except.ok.injEq] at h
    subst h
    simp [diffWithinThresh, not_le]
  | true =>
    simp only [perDiff, if_true] at h
    by_cases hz : sortVal = 0
    · rw [if_pos hz] at h; cases h
    · rw [if_neg hz, Except.ok.injEq] at h
      subst h
      simp [diffWithinThresh, not_le]

/-- A successful rank loop satisfies the claimed step relation. -/
lemma rankAux_ranksSpec (per : Bool) (thresh : ℚ) :
    ∀ (vs : List ℚ) (r : ℕ) (sv : ℚ) (rl : List (ℚ × ℕ)),
      rankAux per thresh r sv vs = .ok rl → RanksSpec per thresh sv r rl := by
  intro vs
  induction vs with
  | nil =>
    intro r sv rl h
    simp only [rankAux, Except.ok.injEq] at h
    subst h
    exact RanksSpec.nil sv r
  | cons v rest ih =>
    intro r sv rl h
    unfold rankAux at h
    cases hd : perDiff per thresh sv v with
    | error e => rw [hd] at h; cases h
    | ok big =>
      rw [hd] at h
      have hbig := perDiff_ok_iff per thresh sv v big hd
      cases big with
      | false =>
        simp only [Bool.false_eq_true, if_false] at h
        cases ha : rankAux per thresh r sv rest with
        | error e => rw [ha] at h; cases h
        | ok l =>
          rw [ha] at h
          simp only [Except.map, Except.ok.injEq] at h
          subst h
          have hdw : diffWithinThresh per thresh sv v := by
            by_contra hc
            exact absurd (hbig.mpr hc) (by simp)
          exact RanksSpec.same sv r v l hdw (ih r sv l ha)
      | true =>
        simp only [if_true] at h
        cases ha : rankAux per thresh (r + 1) v rest with
        | error e => rw [ha] at h; cases h
        | ok l =>
          rw [ha] at h
          simp only [Except.map, Except.ok.injEq] at h
          subst h
          exact RanksSpec.incr sv r v l (hbig.mp rfl) (ih (r + 1) v l ha)

/-- A successful rank loop emits ranks forming a gapless interval: the rank
of the first emitted pair is the starting rank or its successor, and the set
of emitted ranks is exactly the integer interval from that first rank up to
some top rank. -/
lemma rankAux_contig (per : Bool) (thresh : ℚ) :
    ∀ (vs : List ℚ) (r : ℕ) (sv : ℚ) (rl : List (ℚ × ℕ)),
      rankAux per thresh r sv vs = .ok rl →
      rl = [] ∨ ∃ p k, rl.head? = some p ∧ (p.2 = r ∨ p.2 = r + 1) ∧ p.2 ≤ k ∧
        (rl.map Prod.snd).toFinset = Finset.Icc p.2 k := by
  intro vs
  induction vs with
  | nil =>
    intro r sv rl h
    simp only [rankAux, Except.ok.injEq] at h
    exact Or.inl h.symm
  | cons v rest ih =>
    intro r sv rl h
    unfold rankAux at h
    cases hd : perDiff per thresh sv v with
    | error e => rw [hd] at h; cases h
    | ok big =>
      rw [hd] at h
      cases big with
      | false =>
        simp only [Bool.false_eq_true, if_false] at h
        cases ha : rankAux per thresh r sv rest with
        | error e => rw [ha] at h; cases h
        | ok l =>
          rw [ha] at h
          simp only [Except.map, Except.ok.injEq] at h
          subst h
          refine Or.inr ?_
          rcases ih r sv l ha with hnil | ⟨p, k, hp, hpr, hpk, hfin⟩
          · subst hnil
            exact ⟨(v, r), r, rfl, Or.inl rfl, le_refl r, by simp⟩
          · refine ⟨(v, r), k, rfl, Or.inl rfl, ?_, ?_⟩
            · rcases hpr with hpr | hpr <;> omega
            · simp only [List.map_cons, List.toFinset_cons, hfin]
              ext x
              simp only [Finset.mem_insert, Finset.mem_Icc]
              rcases hpr with hpr | hpr <;> omega
      | true =>
        simp only [if_true] at h
        cases ha : rankAux per thresh (r + 1) v rest with
        | error e => rw [ha] at h; cases h
        | ok l =>
          rw [ha] at h
          simp only [Except.map, Except.ok.injEq] at h
          subst h
          refine Or.inr ?_
          rcases ih (r + 1) v l ha with hnil | ⟨p, k, hp, hpr, hpk, hfin⟩
          · subst hnil
            exact ⟨(v, r + 1), r + 1, rfl, Or.inr rfl, le_refl _, by simp⟩
          · refine ⟨(v, r + 1), k, rfl, Or.inr rfl, ?_, ?_⟩
            · rcases hpr with hpr | hpr <;> omega
            · simp only [List.map_cons, List.toFinset_cons, hfin]
              ext x
              simp only [Finset.mem_insert, Finset.mem_Icc]
              rcases hpr with hpr | hpr <;> omega

/-- Claim C6: for any group value list (sorted, optionally rounded,
deduplicated, as built by addRanks), a successful run of the rank loop
(with a nonnegative threshold) assigns rank 1 to the first value, follows
the claimed same-rank-iff-within-threshold step relation relative to the
last rank-incrementing value, and the set of assigned ranks is the gapless
interval 1..k. -/
lemma rankGroup_props (per : Bool) (thresh v0 : ℚ) (vs : List ℚ) (rl : List (ℚ × ℕ))
    (hth : 0 ≤ thresh) (h : rankGroup per thresh (v0 :: vs) = .ok rl) :
    rl.head? = some (v0, 1) ∧ RanksSpec per thresh v0 1 rl ∧
      ∃ k, 1 ≤ k ∧ (rl.map Prod.snd).toFinset = Finset.Icc 1 k := by
  have hrg : rankAux per thresh 1 v0 (v0 :: vs) = .ok rl := h
  -- the first comparison never increments: the difference from v0 to itself is 0
  have hfirst : rl.head? = some (v0, 1) := by
    unfold rankAux at hrg
    cases hd : perDiff per thresh v0 v0 with
    | error e => rw [hd] at hrg; cases hrg
    | ok big =>
      rw [hd] at hrg
      have hbig := perDiff_ok_iff per thresh v0 v0 big hd
      have hdw : diffWithinThresh per thresh v0 v0 := by
        unfold diffWithinThresh
        cases per <;> simp [hth]
      have : big = false := by
        cases big with
        | false => rfl
        | true => exact absurd hdw (hbig.mp rfl)
      subst this
      simp only [Bool.false_eq_true, if_false] at hrg
      cases ha : rankAux per thresh 1 v0 vs with
      | error e => rw [ha] at hrg; cases hrg
      | ok l =>
        rw [ha] at hrg
        simp only [Except.map, Except.ok.injEq] at hrg
        subst hrg
        rfl
  refine ⟨hfirst, rankAux_ranksSpec per thresh _ _ _ _ hrg, ?_⟩
  rcases rankAux_contig per thresh _ _ _ _ hrg with hnil | ⟨p, k, hp, hpr, hpk, hfin⟩
  · subst hnil; cases hfirst
  · rw [hfirst] at hp
    have hp1 : p = (v0, 1) := by injection hp with hp; exact hp.symm
    subst hp1
    exact ⟨k, hpk, hfin⟩

/-- A successful table-level addRanks run ranks every group by the
group-level rank loop. -/
lemma addRanksModel_group (per : Bool) (thresh : ℚ) :
    ∀ (groups : List (String × List ℚ)) (out : List (String × List (ℚ × ℕ)))
      (g : String) (vals : List ℚ),
      addRanksModel per thresh groups = .ok out → (g, vals) ∈ groups →
      ∃ rl, rankGroup per thresh vals = .ok rl ∧ (g, rl) ∈ out := by
  intro groups
  induction groups with
  | nil =>
    intro out g vals _ hmem
    cases hmem
  | cons x xs ih =>
    intro out g vals hok hmem
    unfold addRanksModel at hok
    cases hx : rankGroup per thresh x.2 with
    | error e => rw [hx] at hok; cases hok
    | ok l =>
      rw [hx] at hok
      cases hxs : addRanksModel per thresh xs with
      | error e => rw [hxs] at hok; cases hok
      | ok t =>
        rw [hxs] at hok
        simp only [Except.map, Except.ok.injEq] at hok
        subst hok
        rcases List.mem_cons.mp hmem with hx1 | hx1
        · subst hx1
          exact ⟨l, hx, List.mem_cons_self _ _⟩
        · rcases ih t g vals hxs hx1 with ⟨rl, hrl, hmem2⟩
          exact ⟨rl, hrl, List.mem_cons_of_mem _ hmem2⟩

/-- Claim C6: for every input table, group and sort field - i.e. for every
group value list (sorted, optionally rounded, deduplicated) of a
successfully completed addRanks call with a nonnegative threshold - the
group's first value is assigned rank 1, the assignment follows the claimed
same-rank-iff-within-threshold step relation relative to the last
rank-incrementing value, and the set of assigned ranks within the group is
the gapless interval 1..k. -/
theorem C6_addRanks_dense (per : Bool) (thresh v0 : ℚ) (vs : List ℚ) (g : String)
    (groups : List (String × List ℚ)) (out : List (String × List (ℚ × ℕ)))
    (hth : 0 ≤ thresh) (hmem : (g, v0 :: vs) ∈ groups)
    (hok : addRanksModel per thresh groups = .ok out) :
    ∃ rl, (g, rl) ∈ out ∧ rl.head? = some (v0, 1) ∧ RanksSpec per thresh v0 1 rl ∧
      ∃ k, 1 ≤ k ∧ (rl.map Prod.snd).toFinset = Finset.Icc 1 k := by
  rcases addRanksModel_group per thresh groups out g (v0 :: vs) hok hmem with ⟨rl, hrl, hout⟩
  rcases rankGroup_props per thresh v0 vs rl hth hrl with ⟨h1, h2, h3⟩
  exact ⟨rl, hout, h1, h2, h3⟩

/-- Witness for C6: a one-group ABS table with threshold 5 and values
0, 3, 10 is ranked 1, 1, 2. -/
theorem C6_addRanks_dense_witness :
    ∃ rl, (("ELCODE1", rl) ∈
        ([("ELCODE1", [(0, 1), (3, 1), (10, 2)])] : List (String × List (ℚ × ℕ)))) ∧
      rl.head? = some ((0 : ℚ), 1) ∧ RanksSpec false 5 0 1 rl ∧
      ∃ k, 1 ≤ k ∧ (rl.map Prod.snd).toFinset = Finset.Icc 1 k :=
  C6_addRanks_dense false 5 0 [3, 10] "ELCODE1" [("ELCODE1", [0, 3, 10])]
    [("ELCODE1", [(0, 1), (3, 1), (10, 2)])] (by norm_num) (by simp)
    (by norm_num [addRanksModel, rankGroup, rankAux, perDiff, Except.map, abs])

/-- Claim C10: with threshtype PER, a group whose first sorted value is 0
makes the percent-difference expression divide by zero, so the whole
addRanks call fails before any rank field is written. -/
theorem C10_addRanks_per_zero_division (thresh : ℚ) (groups : List (String × List ℚ))
    (g : String) (rest : List ℚ) (hmem : (g, 0 :: rest) ∈ groups) :
    addRanksModel true thresh groups = .error () := by
  induction groups with
  | nil => cases hmem
  | cons x xs ih =>
    rcases List.mem_cons.mp hmem with hx | hx
    · subst hx
      simp [addRanksModel, rankGroup, rankAux, perDiff]
    · have hxs := ih hx
      unfold addRanksModel
      cases hfx : rankGroup true thresh x.2 with
      | error e => cases e; rfl
      | ok l => rw [hxs]; rfl

/-- Witness for C10: a table with one PER-ranked group whose first value is
0 aborts with the division error. -/
theorem C10_addRanks_per_zero_division_witness :
    addRanksModel true 5 [("ELCODE1", [0, 2])] = .error () :=
  C10_addRanks_per_zero_division 5 [("ELCODE1", [0, 2])] "ELCODE1" [2] (by simp)

/-- Counterexample to claim C9: in a cluster of outer area 100, a hole of
area 50 (50 percent of the cluster) is eliminated by the code's 99-percent
cutoff, while the claim says every hole of 1 percent or more is preserved. -/
theorem C9_shrinkwrap_holes_counterexample :
    shrinkWrapRetainedHoles 100 [50] = [] ∧
      shrinkWrapRetainedHolesClaim 100 [50] = [50] ∧
      shrinkWrapRetainedHoles 100 [50] ≠ shrinkWrapRetainedHolesClaim 100 [50] := by
  have h1 : shrinkWrapRetainedHoles 100 [50] = [] := by
    norm_num [shrinkWrapRetainedHoles, elimPolygonPartPercent, List.filter]
  have h2 : shrinkWrapRetainedHolesClaim 100 [50] = [50] := by
    norm_num [shrinkWrapRetainedHolesClaim, List.filter]
  refine ⟨h1, h2, ?_⟩
  rw [h1, h2]
  simp

/-- Claim C9 amended: inside ShrinkWrap, exactly the interior holes whose
area is less than 99 percent of the cluster's outer area are eliminated;
a hole is preserved in the emitted cluster polygon iff it comprises at
least 99 percent of the cluster. -/
theorem C9_shrinkwrap_holes_amended (clusterArea h : ℚ) (holes : List ℚ) :
    h ∈ shrinkWrapRetainedHoles clusterArea holes ↔
      h ∈ holes ∧ 100 * h ≥ 99 * clusterArea := by
  simp [shrinkWrapRetainedHoles, elimPolygonPartPercent, List.mem_filter, not_lt, ge_iff_le]

/-- Counterexample to claim C8: one erase feature (cells 0 and 1) fully
swallows the single SBB (cell 0).  The claim removes the erase feature
whole; the code instead erases the SBB's footprint out of it, leaving
cell 1 in the erase set. -/
theorem C8_cullerase_counterexample :
    cullEraseFeats [{0, 1}] [{0}] 100 = [{1}] ∧
      cullEraseFeatsClaim [{0, 1}] [{0}] 100 = [] ∧
      cullEraseFeats [{0, 1}] [{0}] 100 ≠ cullEraseFeatsClaim [{0, 1}] [{0}] 100 := by
  have h1 : cullEraseFeats [{0, 1}] [{0}] 100 = [{1}] := by
    have hsum : sumCov {0} [{0, 1}] = 100 := by norm_num [sumCov, pctCov]
    norm_num [cullEraseFeats, List.filter, hsum, unionList]
    decide
  have h2 : cullEraseFeatsClaim [{0, 1}] [{0}] 100 = [] := by
    have hp : pctCov {0} {0, 1} = 100 := by norm_num [pctCov]
    norm_num [cullEraseFeatsClaim, List.filter, hp]
  refine ⟨h1, h2, ?_⟩
  rw [h1, h2]
  simp

lemma mem_unionList {α : Type} [DecidableEq α] (l : List (Finset α)) (x : α) :
    x ∈ unionList l ↔ ∃ t ∈ l, x ∈ t := by
  induction l with
  | nil => simp [unionList]
  | cons a t ih => simp [unionList, List.foldr_cons] at ih ⊢; rw [ih]

lemma disjoint_unionList (h : Finset ℕ) (l : List (Finset ℕ))
    (hd : ∀ b ∈ l, Disjoint h b) : Disjoint h (unionList l) := by
  rw [Finset.disjoint_left]
  intro x hx hxu
  rcases (mem_unionList l x).mp hxu with ⟨t, ht, hxt⟩
  exact (Finset.disjoint_left.mp (hd t ht)) hx hxt

lemma inter_card_sum_of_disjoint (s : Finset ℕ) :
    ∀ l : List (Finset ℕ), l.Pairwise (fun a b => Disjoint a b) →
      ((l.map (fun h => ((s ∩ h).card : ℚ))).sum) = ((s ∩ unionList l).card : ℚ) := by
  intro l
  induction l with
  | nil => simp [unionList]
  | cons a t ih =>
    intro hp
    rcases List.pairwise_cons.mp hp with ⟨ha, ht⟩
    have hdis : Disjoint (s ∩ a) (s ∩ unionList t) := by
      have := disjoint_unionList a t ha
      exact (this.mono Finset.inter_subset_right Finset.inter_subset_right)
    have hcard : ((s ∩ (a ∪ unionList t)).card : ℚ)
        = ((s ∩ a).card : ℚ) + ((s ∩ unionList t).card : ℚ) := by
      rw [Finset.inter_union_distrib_left]
      rw [Finset.card_union_of_disjoint hdis]
      push_cast
      ring
    simp only [List.map_cons, List.sum_cons, ih ht]
    rw [show unionList (a :: t) = a ∪ unionList t from rfl, hcard]

lemma sumCov_eq (s : Finset ℕ) (l : List (Finset ℕ)) :
    sumCov s l = 100 * ((l.map (fun h => ((s ∩ h).card : ℚ))).sum) / (s.card : ℚ) := by
  induction l with
  | nil => simp [sumCov]
  | cons a t ih =>
    simp only [sumCov, List.map_cons, List.sum_cons] at ih ⊢
    rw [ih, pctCov]
    ring

/-- Claim C8 amended: (1) a cell stays in the erase-feature set iff it lies
in some input erase feature and in no SBB whose summed coverage by the erase
features reaches `perCov` - erase features are chopped by the footprints of
the swallowed SBBs, never dropped whole; (2) when the erase features are
pairwise disjoint (they are dissolved to single part before the call), a
nonempty SBB reaches the default cutoff of 100 exactly when the erase
features jointly swallow it. -/
theorem C8_cullerase_amended (hydros sbbs : List (Finset ℕ)) (perCov : ℚ) :
    (∀ x : ℕ, (∃ h ∈ cullEraseFeats hydros sbbs perCov, x ∈ h) ↔
      ((∃ h ∈ hydros, x ∈ h) ∧ ¬ ∃ s ∈ sbbs, sumCov s hydros ≥ perCov ∧ x ∈ s)) ∧
    (hydros.Pairwise (fun a b => Disjoint a b) →
      ∀ s : Finset ℕ, s.Nonempty → (sumCov s hydros ≥ 100 ↔ s ⊆ unionList hydros)) := by
  constructor
  · intro x
    constructor
    · rintro ⟨h, hh, hx⟩
      simp only [cullEraseFeats, List.mem_filter, List.mem_map] at hh
      rcases hh with ⟨⟨h0, hh0, rfl⟩, -⟩
      rcases Finset.mem_sdiff.mp hx with ⟨hxh0, hxu⟩
      refine ⟨⟨h0, hh0, hxh0⟩, ?_⟩
      rintro ⟨s, hs, hcov, hxs⟩
      exact hxu ((mem_unionList _ x).mpr ⟨s, List.mem_filter.mpr ⟨hs, by simpa using hcov⟩, hxs⟩)
    · rintro ⟨⟨h0, hh0, hxh0⟩, hns⟩
      have hxu : x ∉ unionList (sbbs.filter (fun s => decide (sumCov s hydros ≥ perCov))) := by
        intro hxu
        rcases (mem_unionList _ x).mp hxu with ⟨s, hsf, hxs⟩
        rcases List.mem_filter.mp hsf with ⟨hs, hcov⟩
        exact hns ⟨s, hs, by simpa using hcov, hxs⟩
      refine ⟨h0 \ unionList (sbbs.filter (fun s => decide (sumCov s hydros ≥ perCov))), ?_, ?_⟩
      · simp only [cullEraseFeats, List.mem_filter, List.mem_map]
        refine ⟨⟨h0, hh0, rfl⟩, ?_⟩
        have hne : h0 \ unionList (sbbs.filter (fun s => decide (sumCov s hydros ≥ perCov))) ≠ ∅ := by
          intro hempty
          have hmem : x ∈ h0 \ unionList (sbbs.filter (fun s => decide (sumCov s hydros ≥ perCov))) :=
            Finset.mem_sdiff.mpr ⟨hxh0, hxu⟩
          rw [hempty] at hmem
          exact absurd hmem (Finset.not_mem_empty x)
        simpa using hne
      · exact Finset.mem_sdiff.mpr ⟨hxh0, hxu⟩
  · intro hdisj s hs
    have hsum := sumCov_eq s hydros
    rw [inter_card_sum_of_disjoint s hydros hdisj] at hsum
    have hn : (0 : ℚ) < (s.card : ℚ) := by
      have := Finset.card_pos.mpr hs
      exact_mod_cast this
    rw [hsum, ge_iff_le, le_div_iff hn]
    constructor
    · intro hge
      have hcard : s.card ≤ (s ∩ unionList hydros).card := by
        have h100 : (s.card : ℚ) ≤ ((s ∩ unionList hydros).card : ℚ) := by linarith
        exact_mod_cast h100
      have heq : s ∩ unionList hydros = s :=
        Finset.eq_of_subset_of_card_le Finset.inter_subset_left hcard
      exact Finset.inter_eq_left.mp heq
    · intro hsub
      rw [Finset.inter_eq_left.mpr hsub]

/-- Witness for the amended C8: the erase feature of cells 0 and 1 is
pairwise disjoint with itself (a one-feature list), and the nonempty SBB
of cell 0 reaches summed coverage 100 iff it is swallowed by the union. -/
theorem C8_cullerase_amended_witness :
    sumCov {0} [{0, 1}] ≥ 100 ↔ ({0} : Finset ℕ) ⊆ unionList [{0, 1}] :=
  (C8_cullerase_amended [{0, 1}] [{0}] 100).2 (by simp) {0} ⟨0, by simp⟩

/-- Counterexample to claim C3: a site to which no EO joins (here: one site,
one EO, never within the slop distance) gets a null ECS_TIER - the JoinField
adds no record for it - not the text "NA". -/
theorem C3_site_tier_counterexample :
    ecsTier (fun _ _ => false) [⟨1, ["TCS"], 1⟩] [⟨7, "TCS"⟩] ⟨7, "TCS"⟩ = none ∧
      ecsTierClaim (fun _ _ => false) [⟨1, ["TCS"], 1⟩] [⟨7, "TCS"⟩] ⟨7, "TCS"⟩ = some "NA" ∧
      ecsTier (fun _ _ => false) [⟨1, ["TCS"], 1⟩] [⟨7, "TCS"⟩] ⟨7, "TCS"⟩ ≠
        ecsTierClaim (fun _ _ => false) [⟨1, ["TCS"], 1⟩] [⟨7, "TCS"⟩] ⟨7, "TCS"⟩ := by
  refine ⟨rfl, rfl, ?_⟩
  decide

/-- Claim C3 amended: for a site with at least one joined EO (type-matched,
within the slop factor), ECS_TIER is the tier text of the minimum FinalRANK
among its joined EOs; for a site with no joined EO the field stays null
("NA" instead arises for joined-but-ineligible EOs, whose FinalRANK is 6). -/
theorem C3_site_tier_amended (near : ℕ → ℕ → Bool) (eos : List EOJ) (sites : List SiteJ)
    (c : SiteJ) :
    (((sjoinByType near eos sites).filter (fun r => r.csId == c.id)) = [] →
      ecsTier near eos sites c = none) ∧
    (∀ r0 ∈ (sjoinByType near eos sites).filter (fun r => r.csId == c.id),
      ∃ m : ℤ, ecsTier near eos sites c = some (fnTier m) ∧
        (∀ r1 ∈ (sjoinByType near eos sites).filter (fun r => r.csId == c.id),
          m ≤ r1.finalRank) ∧
        (∃ r2 ∈ (sjoinByType near eos sites).filter (fun r => r.csId == c.id),
          r2.finalRank = m)) := by
  constructor
  · intro hnil
    unfold ecsTier minFinalRank
    rw [hnil]
    rfl
  · intro r0 hr0
    rcases hmin : ((((sjoinByType near eos sites).filter
        (fun r => r.csId == c.id)).map (·.finalRank)).min?) with _ | m
    · rw [List.min?_eq_none_iff, List.map_eq_nil_iff] at hmin
      rw [hmin] at hr0
      cases hr0
    · refine ⟨m, ?_, ?_, ?_⟩
      · unfold ecsTier minFinalRank
        rw [hmin]
        rfl
      · intro r1 hr1
        have hall := (List.le_min?_iff (fun a b c => le_min_iff) hmin).mp (le_refl m)
        exact hall _ (List.mem_map_of_mem (·.finalRank) hr1)
      · have hmem := List.min?_mem (fun a b => min_choice a b) hmin
        rcases List.mem_map.mp hmem with ⟨r2, hr2, hr2m⟩
        exact ⟨r2, hr2, hr2m⟩

/-- Witness for the amended C3: one EO of rank 2 joined to one site yields
ECS_TIER "Critical". -/
theorem C3_site_tier_amended_witness :
    ∃ m : ℤ, ecsTier (fun _ _ => true) [⟨1, ["TCS"], 2⟩] [⟨7, "TCS"⟩] ⟨7, "TCS"⟩ =
        some (fnTier m) ∧
      (∀ r1 ∈ (sjoinByType (fun _ _ => true) [⟨1, ["TCS"], 2⟩] [⟨7, "TCS"⟩]).filter
          (fun r => r.csId == (⟨7, "TCS"⟩ : SiteJ).id), m ≤ r1.finalRank) ∧
      (∃ r2 ∈ (sjoinByType (fun _ _ => true) [⟨1, ["TCS"], 2⟩] [⟨7, "TCS"⟩]).filter
          (fun r => r.csId == (⟨7, "TCS"⟩ : SiteJ).id), r2.finalRank = m) :=
  (C3_site_tier_amended (fun _ _ => true) [⟨1, ["TCS"], 2⟩] [⟨7, "TCS"⟩] ⟨7, "TCS"⟩).2
    ⟨1, 7, 2⟩ (by decide)

lemma dist2_nonneg (a b : Pt) : 0 ≤ dist2 a b :=
  add_nonneg (sq_nonneg _) (sq_nonneg _)

lemma dist2_self (a : Pt) : dist2 a a = 0 := by simp [dist2]

lemma dist2_le_zero_iff (a b : Pt) : dist2 a b ≤ 0 ↔ a = b := by
  constructor
  · intro h
    have h0 : dist2 a b = 0 := le_antisymm h (dist2_nonneg a b)
    unfold dist2 at h0
    have h1 : (a.1 - b.1) ^ 2 = 0 := by nlinarith [sq_nonneg (a.1 - b.1), sq_nonneg (a.2 - b.2)]
    have h2 : (a.2 - b.2) ^ 2 = 0 := by nlinarith [sq_nonneg (a.1 - b.1), sq_nonneg (a.2 - b.2)]
    have e1 : a.1 = b.1 := by have := sq_eq_zero_iff.mp h1; omega
    have e2 : a.2 = b.2 := by have := sq_eq_zero_iff.mp h2; omega
    exact Prod.ext e1 e2
  · rintro rfl
    simp [dist2_self]

lemma buffSet_mono (S : Finset Pt) (d1 d2 : ℤ) (h0 : 0 ≤ d1) (h12 : d1 ≤ d2) :
    buffSet S d1 ⊆ buffSet S d2 := by
  intro x hx
  rcases hx with ⟨y, hy, hd⟩
  exact ⟨y, hy, le_trans hd (pow_le_pow_left h0 h12 2)⟩

lemma buffSet_zero (P : Finset Pt) : buffSet P 0 = (↑P : Set Pt) := by
  ext x
  simp only [buffSet, Set.mem_setOf_eq, inBuff, Finset.mem_coe]
  constructor
  · rintro ⟨y, hy, hd⟩
    have hxy : x = y := (dist2_le_zero_iff x y).mp (by simpa using hd)
    rw [hxy]; exact hy
  · intro hx
    exact ⟨x, hx, by simp [dist2_self]⟩

lemma wetlandSBBgen_subset (P : Finset Pt) (nwi : List (Finset Pt)) (b1 b2 : ℤ)
    (h0 : 0 ≤ b1) (h12 : b1 ≤ b2) :
    wetlandSBBgen P nwi b1 b2 ⊆ buffSet P b2 := by
  unfold wetlandSBBgen
  split_ifs with h1 h2
  · exact buffSet_mono P b1 b2 h0 h12
  · exact buffSet_mono P b1 b2 h0 h12
  · exact Set.inter_subset_right

lemma wetlandSBBgen_no_nwi (P : Finset Pt) (nwi : List (Finset Pt)) (b1 b2 : ℤ)
    (hno : ∀ w ∈ nwi, ¬ ∃ x ∈ w, ∃ y ∈ P, dist2 x y ≤ 15 ^ 2) :
    wetlandSBBgen P nwi b1 b2 = buffSet P b1 := by
  have hempty : nwiSel0 P nwi b2 = [] := by
    rw [nwiSel0, List.filter_eq_nil_iff]
    intro w' hw'
    rcases List.mem_map.mp hw' with ⟨w, hwf, rfl⟩
    rcases List.mem_filter.mp hwf with ⟨hwnwi, -⟩
    intro hnear
    rcases of_decide_eq_true hnear with ⟨x, hx, y, hy, hd⟩
    exact hno w hwnwi ⟨x, Finset.mem_of_mem_filter x hx, y, hy, hd⟩
  unfold wetlandSBBgen
  split_ifs with h1 h2
  · rfl
  · rfl
  · exact absurd (by simp [hempty]) h2

/-- Claim C5: for a wetland-rule PF, the SBB is contained in the maximum
buffer (500 m normally, 250 m under the zero-buffer override); and when no
NWI feature of the rule's subset is within 15 m of the PF, the SBB equals
the minimum buffer (a 250 m buffer normally, the PF itself under the
override). -/
theorem C5_wetland_sbb_clamp (P : Finset Pt) (nwi : List (Finset Pt)) (ov : Bool) :
    wetlandSBB P nwi ov ⊆ buffSet P (if ov then 250 else 500) ∧
    ((∀ w ∈ nwi, ¬ ∃ x ∈ w, ∃ y ∈ P, dist2 x y ≤ 15 ^ 2) →
      wetlandSBB P nwi ov = if ov then (↑P : Set Pt) else buffSet P 250) := by
  cases ov with
  | false =>
    refine ⟨?_, fun hno => ?_⟩
    · simpa [wetlandSBB] using
        wetlandSBBgen_subset P nwi 250 500 (by norm_num) (by norm_num)
    · simpa [wetlandSBB] using wetlandSBBgen_no_nwi P nwi 250 500 hno
  | true =>
    refine ⟨?_, fun hno => ?_⟩
    · simpa [wetlandSBB] using
        wetlandSBBgen_subset P nwi 0 250 (by norm_num) (by norm_num)
    · rw [show wetlandSBB P nwi true = wetlandSBBgen P nwi 0 250 from by simp [wetlandSBB]]
      rw [wetlandSBBgen_no_nwi P nwi 0 250 hno]
      simpa using buffSet_zero P

/-- Witness for C5: a single-point PF with no NWI features at all and the
zero-buffer override in force has SBB equal to the PF itself. -/
theorem C5_wetland_sbb_clamp_witness :
    wetlandSBB {((0 : ℤ), (0 : ℤ))} [] true = (↑({((0 : ℤ), (0 : ℤ))} : Finset Pt) : Set Pt) := by
  have h := (C5_wetland_sbb_clamp {((0 : ℤ), (0 : ℤ))} [] true).2 (by simp)
  simpa using h

/-- Counterexample to claim C7: the terrestrial final stage performs no
exclusion erase at all - the claimed step sequence is not the code's. -/
theorem C7_final_exclusion_erase_counterexample :
    SiteOp.eraseExclusions ∉ tcsFinalSteps ∧
      SiteOp.eraseExclusions ∈ tcsFinalStepsClaim ∧
      tcsFinalSteps ≠ tcsFinalStepsClaim := by
  refine ⟨?_, ?_, ?_⟩ <;> decide

/-- Claim C7 amended: after the final smoothing of the merged split-site
boundaries, the code eliminates interior holes below the 99.99 percent
cutoff, generalizes the boundary by 0.5 m and appends the polygon to the
output - with NO further erase of the exclusion features (that step is
commented out in the source), so the stage gives no guarantee that manually
excluded areas stay outside the appended site polygon. -/
theorem C7_final_steps_amended :
    tcsFinalSteps = [.smoothBoundary 10, .elimHolesPercent (9999 / 100),
      .generalizeBoundary (1 / 2), .appendOutput] ∧
      ∀ op ∈ tcsFinalSteps, op ≠ SiteOp.eraseExclusions := by
  refine ⟨rfl, ?_⟩
  decide

/-- Claim C1 fails on the code: on the failing input, element E ends the
NEW build with three EOs in the portfolio against a target of two and no
forcing overrides, because the bycatch cap of updatePortfolio compares each
site type's bycatch against a slot dictionary that is not refreshed between
the site-type iterations: the TCS pass adds EOs 1 and 2 (2 of 2 open
slots), then the SCS pass still sees 2 open slots and adds EO 3. -/
theorem C1_bycatch_exceeds_target :
    portfolioEOCount (buildPortfolioNEW exNear exTargets exEOs exSites).1 "E" = 3 ∧
      slotLookup exTargets "E" = 2 ∧
      overrideOneCount (buildPortfolioNEW exNear exTargets exEOs exSites).1 "E" = 0 ∧
      ¬ (portfolioEOCount (buildPortfolioNEW exNear exTargets exEOs exSites).1 "E" ≤
          2 + overrideOneCount (buildPortfolioNEW exNear exTargets exEOs exSites).1 "E") := by
  refine ⟨?_, ?_, ?_, ?_⟩ <;> decide

lemma tierRel_refl (a : EO) : TierRel a a := ⟨rfl, rfl, rfl, Or.inl rfl⟩

lemma tierRel_trans {a b c : EO} (h1 : TierRel a b) (h2 : TierRel b c) : TierRel a c := by
  obtain ⟨e1, x1, t1, p1⟩ := h1
  obtain ⟨e2, x2, t2, p2⟩ := h2
  refine ⟨e2.trans e1, x2.trans x1, t2.trans t1, ?_⟩
  rcases p2 with p2 | p2
  · rw [p2]; exact p1
  · exact Or.inr p2

/-- Transport of `TierRel` through a pointwise map. -/
lemma tierRel_of_map {f : EO → EO} (hf : ∀ e, TierRel e (f e)) (l : List EO) :
    ∀ b ∈ l.map f, ∃ a ∈ l, TierRel a b := by
  intro b hb
  rcases List.mem_map.mp hb with ⟨a, ha, rfl⟩
  exact ⟨a, ha, hf a⟩

/-- Chaining of the transport property. -/
lemma tierRel_chain {l1 l2 l3 : List EO}
    (h12 : ∀ b ∈ l2, ∃ a ∈ l1, TierRel a b)
    (h23 : ∀ c ∈ l3, ∃ b ∈ l2, TierRel b c) :
    ∀ c ∈ l3, ∃ a ∈ l1, TierRel a c := by
  intro c hc
  rcases h23 c hc with ⟨b, hb, rbc⟩
  rcases h12 b hb with ⟨a, ha, rab⟩
  exact ⟨a, ha, tierRel_trans rab rbc⟩

lemma puStep1_rel (near : ℕ → ℕ → Bool) (s : String) (eos : List EO) (sites : List CSite) :
    ∀ b ∈ (puStep1 near s eos sites).1, ∃ a ∈ eos, TierRel a b := by
  apply tierRel_of_map
  intro e
  unfold TierRel
  split_ifs <;> simp

lemma puBycatch_rel (near : ℕ → ℕ → Bool) (s : String) (sd : Option (List (String × ℤ)))
    (eos : List EO) (sites : List CSite) :
    ∀ b ∈ puBycatch near s sd eos sites, ∃ a ∈ eos, TierRel a b := by
  unfold puBycatch
  cases sd with
  | none =>
    apply tierRel_of_map
    intro e
    unfold TierRel
    split_ifs <;> simp
  | some d =>
    apply tierRel_of_map
    intro e
    unfold TierRel
    split_ifs <;> simp

lemma puLoop_rel (near : ℕ → ℕ → Bool) (sd : Option (List (String × ℤ))) (bycatch : Bool) :
    ∀ (types : List String) (eos : List EO) (sites : List CSite),
      ∀ b ∈ (puLoop near sd bycatch types eos sites).1, ∃ a ∈ eos, TierRel a b := by
  intro types
  induction types with
  | nil =>
    intro eos sites b hb
    exact ⟨b, hb, tierRel_refl b⟩
  | cons s rest ih =>
    intro eos sites b hb
    rw [puLoop] at hb
    have hstep : ∀ c ∈ (if bycatch then
        puBycatch near s sd (puStep1 near s eos sites).1 (puStep1 near s eos sites).2
        else (puStep1 near s eos sites).1), ∃ a ∈ eos, TierRel a c := by
      cases bycatch with
      | false =>
        simpa using puStep1_rel near s eos sites
      | true =>
        simp only [if_true]
        exact tierRel_chain (puStep1_rel near s eos sites)
          (puBycatch_rel near s sd (puStep1 near s eos sites).1 (puStep1 near s eos sites).2)
    exact tierRel_chain hstep (ih _ _) b hb

lemma updatePortfolioM_rel (near : ℕ → ℕ → Bool) (targets : List (String × ℤ))
    (sd : Option (List (String × ℤ))) (bycatch : Bool) (eos : List EO) (sites : List CSite) :
    ∀ b ∈ (updatePortfolioM near targets sd bycatch eos sites).1, ∃ a ∈ eos, TierRel a b := by
  unfold updatePortfolioM
  exact puLoop_rel near sd bycatch (sortedTypesCS sites) eos sites

lemma updateSlotsM_rel (rankOf : EO → ℤ) (pred : EO → Bool) (sd : List (String × ℤ))
    (eos : List EO) :
    ∀ b ∈ (updateSlotsM rankOf pred sd eos).1, ∃ a ∈ eos, TierRel a b := by
  unfold updateSlotsM
  apply tierRel_of_map
  intro e
  unfold TierRel
  constructor
  · rfl
  constructor
  · rfl
  constructor
  · rfl
  split_ifs <;> simp

lemma fillPass_rel (near : ℕ → ℕ → Bool) (targets : List (String × ℤ)) (thresh : ℚ)
    (rounding : Option ℤ) (val : EO → ℚ) (st : List EO × List CSite × List (String × ℤ)) :
    ∀ b ∈ (fillPass near targets thresh rounding val st).1, ∃ a ∈ st.1, TierRel a b := by
  unfold fillPass
  split_ifs with h
  · intro b hb
    exact ⟨b, hb, tierRel_refl b⟩
  · exact tierRel_chain (updateSlotsM_rel _ _ _ _) (updatePortfolioM_rel _ _ _ _ _ _)

/-- The per-EO effect of tier finalization. -/
lemma finalizeTiers_rel (eos : List EO) :
    ∀ b ∈ finalizeTiers eos, ∃ a ∈ eos, b.exclusion = a.exclusion ∧ b.elcode = a.elcode ∧
      ((a.tier = some "Unassigned" ∧ a.portfolio = 1 ∧ b.tier = some "High Priority") ∨
       (a.tier = some "Unassigned" ∧ a.portfolio ≤ 0 ∧ b.tier = some "General") ∨
       (b.tier = a.tier ∧ (a.tier ≠ some "Unassigned" ∨ (a.portfolio ≠ 1 ∧ ¬ a.portfolio ≤ 0)))) := by
  unfold finalizeTiers
  intro b hb
  rcases List.mem_map.mp hb with ⟨m, hm, rfl⟩
  rcases List.mem_map.mp hm with ⟨a, ha, rfl⟩
  refine ⟨a, ha, ?_⟩
  by_cases ht : a.tier = some "Unassigned"
  · by_cases hp1 : a.portfolio = 1
    · rw [if_pos (show (a.tier == some "Unassigned" && decide (a.portfolio = 1)) = true by
        simp [ht, hp1])]
      rw [if_neg (by simp)]
      exact ⟨rfl, rfl, Or.inl ⟨ht, hp1, rfl⟩⟩
    · rw [if_neg (show ¬ (a.tier == some "Unassigned" && decide (a.portfolio = 1)) = true by
        simp [hp1])]
      by_cases hp0 : a.portfolio ≤ 0
      · rw [if_pos (show (a.tier == some "Unassigned" && decide (a.portfolio ≤ 0)) = true by
          simp [ht, hp0])]
        exact ⟨rfl, rfl, Or.inr (Or.inl ⟨ht, hp0, rfl⟩)⟩
      · rw [if_neg (show ¬ (a.tier == some "Unassigned" && decide (a.portfolio ≤ 0)) = true by
          simp [hp0])]
        exact ⟨rfl, rfl, Or.inr (Or.inr ⟨rfl, Or.inr ⟨hp1, hp0⟩⟩)⟩
  · rw [if_neg (show ¬ (a.tier == some "Unassigned" && decide (a.portfolio = 1)) = true by
      simp [ht])]
    rw [if_neg (show ¬ (a.tier == some "Unassigned" && decide (a.portfolio ≤ 0)) = true by
      simp [ht])]
    exact ⟨rfl, rfl, Or.inr (Or.inr ⟨rfl, Or.inl ht⟩)⟩

lemma resetOverride_rel (eos : List EO) :
    ∀ b ∈ resetOverride eos, ∃ a ∈ eos,
      b.exclusion = a.exclusion ∧ b.elcode = a.elcode ∧ b.tier = a.tier := by
  unfold resetOverride
  intro b hb
  rcases List.mem_map.mp hb with ⟨a, ha, rfl⟩
  refine ⟨a, ha, ?_⟩
  split_ifs <;> exact ⟨rfl, rfl, rfl⟩

/-- Claim C2 fails on the code as stated: on a NEW build over an element
with one eligible and one Not-viable EO, the Not-viable EO (whose TIER was
never joined, since the TIER join applies only to the EXCLUSION = 'Keep'
layer) ends the build with a null TIER, outside the five named tiers. -/
theorem C2_tier_closure_counterexample :
    ¬ (∀ e ∈ (buildPortfolioNEW (fun _ _ => false) [("H", 1)]
        (assignChoiceRank (attributeTiers (assignExclusions []
          [⟨1, "H", ["TCS"], 1, 2, "", none, 0, 0, 0, 0, 0, 0, 0, 0⟩,
           ⟨2, "H", ["TCS"], 10, 2, "", none, 0, 0, 0, 0, 0, 0, 0, 0⟩]))) []).1,
        e.tier ∈ ([some "Irreplaceable", some "Critical", some "Vital",
          some "High Priority", some "General"] : List (Option String))) := by
  decide

/-- Claim C2 amended: after BuildPortfolio (NEW build), every EO with
EXCLUSION = 'Keep' carries one of the five named tiers and none remains
Unassigned, provided the Keep EOs enter with one of the six ScoreEOs tiers;
EOs with any other EXCLUSION enter with a null TIER (the TIER join touches
only the Keep layer) and still have a null TIER at the end. -/
theorem C2_tier_closure_amended (near : ℕ → ℕ → Bool) (targets : List (String × ℤ))
    (eos : List EO) (sites : List CSite)
    (hkeep : ∀ e ∈ eos, e.exclusion = "Keep" →
      e.tier ∈ ([some "Irreplaceable", some "Critical", some "Vital",
        some "High Priority", some "General", some "Unassigned"] : List (Option String)))
    (hnull : ∀ e ∈ eos, e.exclusion ≠ "Keep" → e.tier = none) :
    (∀ e ∈ (buildPortfolioNEW near targets eos sites).1, e.exclusion = "Keep" →
      e.tier ∈ ([some "Irreplaceable", some "Critical", some "Vital",
        some "High Priority", some "General"] : List (Option String)) ∧
        e.tier ≠ some "Unassigned") ∧
    (∀ e ∈ (buildPortfolioNEW near targets eos sites).1, e.exclusion ≠ "Keep" →
      e.tier = none) := by
  -- relate the output to the initialized input through the stages
  have hinit : ∀ b ∈ bpInitEOs eos,
      ∃ a ∈ eos, b.elcode = a.elcode ∧ b.exclusion = a.exclusion ∧ b.tier = a.tier ∧
        b.portfolio = 0 := by
    intro b hb
    rcases List.mem_map.mp hb with ⟨a, ha, rfl⟩
    exact ⟨a, ha, rfl, rfl, rfl, rfl⟩
  have hpre : ∀ c ∈ (bpPre near targets eos sites).1,
      ∃ a ∈ bpInitEOs eos, TierRel a c := by
    unfold bpPre bpStart
    exact tierRel_chain (tierRel_chain (tierRel_chain (tierRel_chain (tierRel_chain
      (tierRel_chain (updatePortfolioM_rel _ _ _ _ _ _) (updatePortfolioM_rel _ _ _ _ _ _))
      (fillPass_rel _ _ _ _ _ _)) (fillPass_rel _ _ _ _ _ _)) (fillPass_rel _ _ _ _ _ _))
      (fillPass_rel _ _ _ _ _ _)) (fillPass_rel _ _ _ _ _ _)
  have hmain : ∀ e ∈ (buildPortfolioNEW near targets eos sites).1,
      ∃ a ∈ eos, e.exclusion = a.exclusion ∧
        ((a.tier = some "Unassigned" ∧
            (e.tier = some "High Priority" ∨ e.tier = some "General")) ∨
         (e.tier = a.tier ∧ a.tier ≠ some "Unassigned")) := by
    unfold buildPortfolioNEW
    intro e he
    obtain ⟨b9, hb9, hx9, -, ht9⟩ := resetOverride_rel _ e he
    obtain ⟨b8, hb8, r8⟩ := updatePortfolioM_rel near targets _ true _ _ b9 hb9
    obtain ⟨b7, hb7, hx7, -, hcase⟩ := finalizeTiers_rel _ b8 hb8
    obtain ⟨b0, hb0, rb0⟩ := hpre b7 hb7
    obtain ⟨a, ha, hec, hxc, htc, hpc⟩ := hinit b0 hb0
    obtain ⟨-, hx70, ht70, hp70⟩ := rb0
    refine ⟨a, ha, ?_, ?_⟩
    · rw [hx9, r8.2.1, hx7, hx70, hxc]
    · have hp7 : b7.portfolio = 0 ∨ b7.portfolio = 1 := by
        rcases hp70 with h | h
        · rw [h, hpc]; exact Or.inl rfl
        · exact Or.inr h
      have ht7a : b7.tier = a.tier := ht70.trans htc
      have htier9 : e.tier = b8.tier := ht9.trans r8.2.2.1
      rcases hcase with ⟨hu, hp1, hb8t⟩ | ⟨hu, hp0, hb8t⟩ | ⟨hsame, hcond⟩
      · exact Or.inl ⟨ht7a ▸ hu, Or.inl (htier9.trans hb8t)⟩
      · exact Or.inl ⟨ht7a ▸ hu, Or.inr (htier9.trans hb8t)⟩
      · rcases hcond with hne | ⟨hn1, hn0⟩
        · exact Or.inr ⟨htier9.trans (hsame.trans ht7a), fun hctr => hne (ht7a.symm ▸ hctr)⟩
        · rcases hp7 with h | h
          · exact absurd (le_of_eq h) hn0
          · exact absurd h hn1
  constructor
  · intro e he hk
    obtain ⟨a, ha, hxa, hcase⟩ := hmain e he
    have hka : a.exclusion = "Keep" := by rw [← hxa]; exact hk
    have h6 := hkeep a ha hka
    rcases hcase with ⟨-, hHP | hG⟩ | ⟨hsame, hne⟩
    · rw [hHP]; exact ⟨by simp, by simp⟩
    · rw [hG]; exact ⟨by simp, by simp⟩
    · rw [hsame]
      simp only [List.mem_cons, List.not_mem_nil, or_false] at h6 ⊢
      refine ⟨?_, hne⟩
      rcases h6 with h | h | h | h | h | h
      · exact Or.inl h
      · exact Or.inr (Or.inl h)
      · exact Or.inr (Or.inr (Or.inl h))
      · exact Or.inr (Or.inr (Or.inr (Or.inl h)))
      · exact Or.inr (Or.inr (Or.inr (Or.inr h)))
      · exact absurd h hne
  · intro e he hnk
    obtain ⟨a, ha, hxa, hcase⟩ := hmain e he
    have hna : a.exclusion ≠ "Keep" := by rw [← hxa]; exact hnk
    have hanone := hnull a ha hna
    rcases hcase with ⟨hu, -⟩ | ⟨hsame, -⟩
    · rw [hanone] at hu; cases hu
    · rw [hsame, hanone]

/-- Witness for the amended C2: one Keep EO entering Unassigned and one
Not-viable EO entering null, with no sites, satisfy the hypotheses; the
conclusion then holds for the build's output. -/
theorem C2_tier_closure_amended_witness :
    (∀ e ∈ (buildPortfolioNEW (fun _ _ => false) [("H", 2)]
      [⟨1, "H", ["TCS"], 4, 2, "Keep", some "Unassigned", 5, 0, 0, 0, 0, 0, 0, 0⟩,
       ⟨2, "H", ["TCS"], 10, 2, "Not viable", none, 7, 0, 0, 0, 0, 0, 0, 0⟩] []).1,
      e.exclusion = "Keep" →
      e.tier ∈ ([some "Irreplaceable", some "Critical", some "Vital",
        some "High Priority", some "General"] : List (Option String)) ∧
        e.tier ≠ some "Unassigned") ∧
    (∀ e ∈ (buildPortfolioNEW (fun _ _ => false) [("H", 2)]
      [⟨1, "H", ["TCS"], 4, 2, "Keep", some "Unassigned", 5, 0, 0, 0, 0, 0, 0, 0⟩,
       ⟨2, "H", ["TCS"], 10, 2, "Not viable", none, 7, 0, 0, 0, 0, 0, 0, 0⟩] []).1,
      e.exclusion ≠ "Keep" → e.tier = none) :=
  C2_tier_closure_amended (fun _ _ => false) [("H", 2)]
    [⟨1, "H", ["TCS"], 4, 2, "Keep", some "Unassigned", 5, 0, 0, 0, 0, 0, 0, 0⟩,
     ⟨2, "H", ["TCS"], 10, 2, "Not viable", none, 7, 0, 0, 0, 0, 0, 0, 0⟩] []
    (by decide) (by decide)

end ConSiteTools
